import Mathlib

/-!
# Verification of the MessageBird webhook signature validator

A shallow embedding of `signature/signature.go`: HMAC-SHA256 request
signing, base64, Go's `net/url` query canonicalization, the timestamp
freshness window, and the request-level orchestration, together with
proofs of the specification's claims about them.

Go byte strings are modelled as `List Nat` with every element `< 256`;
machine words are `Nat` reduced modulo `2 ^ 32` at every operation.
-/

set_option maxRecDepth 100000

/-- A Go byte string: a list of byte values. -/
abbrev GoStr := List Nat

/-- Bytes of an ASCII string literal. -/
def ascii (s : String) : GoStr := s.data.map Char.toNat

/-- Bitwise complement of a 32-bit word. -/
def not32 (a : Nat) : Nat := a ^^^ 4294967295

/-- Right rotation of a 32-bit word. -/
def rotr32 (x n : Nat) : Nat := x / 2 ^ n + x % 2 ^ n * 2 ^ (32 - n)

/-- Logical right shift. -/
def shr (x n : Nat) : Nat := x / 2 ^ n

/-- Addition modulo `2 ^ 32`. -/
def add32 (a b : Nat) : Nat := (a + b) % 4294967296

/-- SHA-256 `Ch` function. -/
def shaCh (e f g : Nat) : Nat := (e &&& f) ^^^ (not32 e &&& g)

/-- SHA-256 `Maj` function. -/
def shaMaj (a b c : Nat) : Nat := ((a &&& b) ^^^ (a &&& c)) ^^^ (b &&& c)

/-- SHA-256 `Σ₀`. -/
def bigSigma0 (x : Nat) : Nat := (rotr32 x 2 ^^^ rotr32 x 13) ^^^ rotr32 x 22

/-- SHA-256 `Σ₁`. -/
def bigSigma1 (x : Nat) : Nat := (rotr32 x 6 ^^^ rotr32 x 11) ^^^ rotr32 x 25

/-- SHA-256 `σ₀`. -/
def smallSigma0 (x : Nat) : Nat := (rotr32 x 7 ^^^ rotr32 x 18) ^^^ shr x 3

/-- SHA-256 `σ₁`. -/
def smallSigma1 (x : Nat) : Nat := (rotr32 x 17 ^^^ rotr32 x 19) ^^^ shr x 10

/-- The SHA-256 round constants. -/
def k256 : List Nat :=
  [1116352408, 1899447441, 3049323471, 3921009573, 961987163, 1508970993,
   2453635748, 2870763221, 3624381080, 310598401, 607225278, 1426881987,
   1925078388, 2162078206, 2614888103, 3248222580, 3835390401, 4022224774,
   264347078, 604807628, 770255983, 1249150122, 1555081692, 1996064986,
   2554220882, 2821834349, 2952996808, 3210313671, 3336571891, 3584528711,
   113926993, 338241895, 666307205, 773529912, 1294757372, 1396182291,
   1695183700, 1986661051, 2177026350, 2456956037, 2730485921, 2820302411,
   3259730800, 3345764771, 3516065817, 3600352804, 4094571909, 275423344,
   430227734, 506948616, 659060556, 883997877, 958139571, 1322822218,
   1537002063, 1747873779, 1955562222, 2024104815, 2227730452, 2361852424,
   2428436474, 2756734187, 3204031479, 3329325298]

/-- The SHA-256 working state: eight 32-bit words. -/
structure Hash8 where
  a : Nat
  b : Nat
  c : Nat
  d : Nat
  e : Nat
  f : Nat
  g : Nat
  h : Nat

/-- The SHA-256 initial hash value. -/
def shaInit : Hash8 :=
  ⟨1779033703,
   3144134277,
   1013904242,
   2773480762,
   1359893119,
   2600822924,
   528734635,
   1541459225⟩

/-- Load a byte string as big-endian 32-bit words. -/
def toWordsBE : GoStr → List Nat
  | b0 :: b1 :: b2 :: b3 :: rest =>
      (b0 * 16777216 + b1 * 65536 + b2 * 256 + b3) :: toWordsBE rest
  | _ => []

/-- Extend the 16 message-schedule words by `n` further words. -/
def scheduleExt : Nat → List Nat → List Nat
  | 0, ws => ws
  | n + 1, ws =>
      let t := ws.length
      let w := add32 (add32 (smallSigma1 (ws.getD (t - 2) 0)) (ws.getD (t - 7) 0))
                     (add32 (smallSigma0 (ws.getD (t - 15) 0)) (ws.getD (t - 16) 0))
      scheduleExt n (ws ++ [w])

/-- One SHA-256 round on the working state, given `(Kₜ, Wₜ)`. -/
def shaRound (st : Hash8) (kw : Nat × Nat) : Hash8 :=
  let t1 := add32 st.h (add32 (bigSigma1 st.e) (add32 (shaCh st.e st.f st.g) (add32 kw.1 kw.2)))
  let t2 := add32 (bigSigma0 st.a) (shaMaj st.a st.b st.c)
  ⟨add32 t1 t2, st.a, st.b, st.c, add32 st.d t1, st.e, st.f, st.g⟩

/-- Compress one 64-byte block into the state. -/
def shaCompress (st : Hash8) (block : GoStr) : Hash8 :=
  let ws := scheduleExt 48 (toWordsBE block)
  let r := (k256.zip ws).foldl shaRound st
  ⟨add32 st.a r.a, add32 st.b r.b, add32 st.c r.c, add32 st.d r.d,
   add32 st.e r.e, add32 st.f r.f, add32 st.g r.g, add32 st.h r.h⟩

/-- SHA-256 message padding: `0x80`, zeros, 64-bit big-endian bit length. -/
def padMsg (m : GoStr) : GoStr :=
  let len := m.length
  let z := (119 - len % 64) % 64
  let bl := 8 * len
  m ++ [128] ++ List.replicate z 0 ++
    [bl / 2 ^ 56 % 256, bl / 2 ^ 48 % 256, bl / 2 ^ 40 % 256, bl / 2 ^ 32 % 256,
     bl / 2 ^ 24 % 256, bl / 2 ^ 16 % 256, bl / 2 ^ 8 % 256, bl % 256]

/-- Compress `fuel` consecutive 64-byte blocks. -/
def processBlocks : Nat → GoStr → Hash8 → Hash8
  | 0, _, st => st
  | f + 1, msg, st => processBlocks f (msg.drop 64) (shaCompress st (msg.take 64))

/-- Serialize a 32-bit word as four big-endian bytes. -/
def wordBytesBE (w : Nat) : GoStr :=
  [w / 16777216 % 256, w / 65536 % 256, w / 256 % 256, w % 256]

/-- Serialize the hash state as 32 bytes. -/
def stateBytes (st : Hash8) : GoStr :=
  wordBytesBE st.a ++ wordBytesBE st.b ++ wordBytesBE st.c ++ wordBytesBE st.d ++
  wordBytesBE st.e ++ wordBytesBE st.f ++ wordBytesBE st.g ++ wordBytesBE st.h

/-- SHA-256 of a byte string (`crypto/sha256.Sum256`). -/
def sha256 (m : GoStr) : GoStr :=
  let p := padMsg m
  stateBytes (processBlocks (p.length / 64) p shaInit)

/-- HMAC key preprocessing: hash long keys, zero-pad to the 64-byte block. -/
def hmacPadKey (key : GoStr) : GoStr :=
  let k := if 64 < key.length then sha256 key else key
  k ++ List.replicate (64 - k.length) 0

/-- HMAC-SHA256 (`crypto/hmac` with `sha256.New`). -/
def hmacSHA256 (key msg : GoStr) : GoStr :=
  let k := hmacPadKey key
  let ipad := k.map (fun c => c ^^^ 54)
  let opad := k.map (fun c => c ^^^ 92)
  sha256 (opad ++ sha256 (ipad ++ msg))

/-- `hMACSHA256(message, key)` from the source: HMAC-SHA256 of the message
under the key (the error return is unreachable and not modelled). -/
def hMACSHA256 (message key : GoStr) : GoStr := hmacSHA256 key message

/-- The base64 standard alphabet, as a byte per 6-bit value. -/
def b64alpha (v : Nat) : Nat :=
  if v < 26 then 65 + v
  else if v < 52 then 97 + (v - 26)
  else if v < 62 then 48 + (v - 52)
  else if v = 62 then 43 else 47

/-- Standard base64 encoding with padding (`base64.StdEncoding.EncodeToString`). -/
def base64Encode : GoStr → GoStr
  | [] => []
  | [a] => [b64alpha (a / 4), b64alpha (a % 4 * 16), 61, 61]
  | [a, b] => [b64alpha (a / 4), b64alpha (a % 4 * 16 + b / 16), b64alpha (b % 16 * 4), 61]
  | a :: b :: c :: rest =>
      b64alpha (a / 4) :: b64alpha (a % 4 * 16 + b / 16) ::
      b64alpha (b % 16 * 4 + c / 64) :: b64alpha (c % 64) :: base64Encode rest

/-- Decode one base64 alphabet byte to its 6-bit value. -/
def b64val (c : Nat) : Option Nat :=
  if 65 ≤ c ∧ c ≤ 90 then some (c - 65)
  else if 97 ≤ c ∧ c ≤ 122 then some (c - 97 + 26)
  else if 48 ≤ c ∧ c ≤ 57 then some (c - 48 + 52)
  else if c = 43 then some 62
  else if c = 47 then some 63
  else none

/-- Decode base64 four-byte quanta; `=` padding may end the final quantum. -/
def b64Chunks : GoStr → Option GoStr
  | [] => some []
  | c1 :: c2 :: c3 :: c4 :: rest =>
      match b64val c1, b64val c2 with
      | some v1, some v2 =>
        if c3 = 61 then
          if c4 = 61 ∧ rest = [] then some [v1 * 4 + v2 / 16] else none
        else
          match b64val c3 with
          | some v3 =>
            if c4 = 61 then
              if rest = [] then some [v1 * 4 + v2 / 16, v2 % 16 * 16 + v3 / 4] else none
            else
              match b64val c4 with
              | some v4 =>
                (b64Chunks rest).map
                  (fun t => (v1 * 4 + v2 / 16) :: (v2 % 16 * 16 + v3 / 4) :: (v3 % 4 * 64 + v4) :: t)
              | none => none
          | none => none
      | _, _ => none
  | _ => none

/-- Standard base64 decoding (`base64.StdEncoding.DecodeString`): carriage
returns and newlines are ignored, otherwise the input is four-byte quanta
with `=` padding allowed only at the end. -/
def base64Decode (s : GoStr) : Option GoStr :=
  b64Chunks (s.filter (fun c => !(c == 10 || c == 13)))

/-- Hexadecimal digit test (`net/url.ishex`). -/
def isHexDigit (c : Nat) : Bool :=
  (48 ≤ c && c ≤ 57) || (97 ≤ c && c ≤ 102) || (65 ≤ c && c ≤ 70)

/-- Value of a hexadecimal digit. -/
def hexVal (c : Nat) : Nat :=
  if 48 ≤ c ∧ c ≤ 57 then c - 48
  else if 97 ≤ c ∧ c ≤ 102 then c - 97 + 10
  else if 65 ≤ c ∧ c ≤ 70 then c - 65 + 10
  else 0

/-- Upper-case hexadecimal digit of a value below 16. -/
def hexUpper (v : Nat) : Nat := if v < 10 then 48 + v else 65 + (v - 10)

/-- `net/url.QueryUnescape`: `%XX` decodes to a byte, `+` to a space; a `%`
not followed by two hex digits is an error. -/
def queryUnescape : GoStr → Option GoStr
  | [] => some []
  | 37 :: a :: b :: rest =>
      if isHexDigit a ∧ isHexDigit b then
        (queryUnescape rest).map (fun t => (hexVal a * 16 + hexVal b) :: t)
      else none
  | 37 :: _ => none
  | 43 :: rest => (queryUnescape rest).map (fun t => 32 :: t)
  | c :: rest => (queryUnescape rest).map (fun t => c :: t)

/-- Byte kept verbatim by `net/url.QueryEscape` (alphanumerics and `-_.~`). -/
def isUnreserved (c : Nat) : Bool :=
  (65 ≤ c && c ≤ 90) || (97 ≤ c && c ≤ 122) || (48 ≤ c && c ≤ 57) ||
  c == 45 || c == 95 || c == 46 || c == 126

/-- `net/url.QueryEscape`: space to `+`, unreserved bytes kept, the rest
percent-encoded with upper-case hex. -/
def queryEscape (s : GoStr) : GoStr :=
  s.flatMap (fun c =>
    if c = 32 then [43]
    else if isUnreserved c then [c]
    else [37, hexUpper (c / 16), hexUpper (c % 16)])

/-- Split a byte string on `&` (empty segments preserved). -/
def splitAmp : GoStr → List GoStr
  | [] => [[]]
  | 38 :: rest => [] :: splitAmp rest
  | c :: rest =>
      match splitAmp rest with
      | [] => [[c]]
      | s :: ss => (c :: s) :: ss

/-- Split a segment at the first `=`; without one the value is empty. -/
def cutEq : GoStr → GoStr × GoStr
  | [] => ([], [])
  | 61 :: rest => ([], rest)
  | c :: rest => ((cutEq rest).1.cons c, (cutEq rest).2)

/-- One `&`-segment of a query string, as `net/url.ParseQuery` treats it:
empty segments, segments containing `;`, and segments whose key or value
fail percent-decoding are all skipped. -/
def parseSegment (seg : GoStr) : Option (GoStr × GoStr) :=
  if seg = [] then none
  else if 59 ∈ seg then none
  else
    match queryUnescape (cutEq seg).1, queryUnescape (cutEq seg).2 with
    | some k, some v => some (k, v)
    | _, _ => none

/-- The key/value pairs `net/url.ParseQuery` collects, in appearance order. -/
def parseQueryPairs (q : GoStr) : List (GoStr × GoStr) :=
  (splitAmp q).filterMap parseSegment

/-- Append one pair to a `url.Values` association list: the value joins an
existing entry for the key, or a fresh entry is added. -/
def addPair : List (GoStr × List GoStr) → GoStr → GoStr → List (GoStr × List GoStr)
  | [], k, v => [(k, [v])]
  | (k0, vs) :: rest, k, v =>
      if k0 = k then (k0, vs ++ [v]) :: rest else (k0, vs) :: addPair rest k v

/-- Build the `url.Values` association list from a pair list. -/
def buildValues (l : List (GoStr × GoStr)) : List (GoStr × List GoStr) :=
  l.foldl (fun m p => addPair m p.1 p.2) []

/-- Go's byte-wise string ordering, `a < b`. -/
def strLt : GoStr → GoStr → Bool
  | [], [] => false
  | [], _ :: _ => true
  | _ :: _, [] => false
  | a :: s, b :: t => if a < b then true else if b < a then false else strLt s t

/-- The ordering used to sort query keys: `¬ (b < a)`. -/
def strLe (a b : GoStr) : Prop := strLt b a = false

instance : DecidableRel strLe := fun a b => instDecidableEqBool (strLt b a) false

/-- The values stored for a key in a `url.Values` association list. -/
def lookupVals (m : List (GoStr × List GoStr)) (k : GoStr) : List GoStr :=
  ((m.find? (fun e => e.1 == k)).map Prod.snd).getD []

/-- `url.Values.Encode`: keys sorted byte-wise, each value percent-encoded,
pairs joined with `&`. -/
def encodeValues (m : List (GoStr × List GoStr)) : GoStr :=
  let ks := (m.map Prod.fst).insertionSort strLe
  List.intercalate [38]
    (ks.flatMap (fun k => (lookupVals m k).map (fun v => queryEscape k ++ 61 :: queryEscape v)))

/-- The part of the raw query before any `#` (a fragment separator ends the
query when `"?" + rqp` is parsed as a URL). -/
def preFrag (rqp : GoStr) : GoStr := rqp.takeWhile (fun c => c ≠ 35)

/-- The fragment part after the first `#`, if any. -/
def fragPart (rqp : GoStr) : GoStr := (rqp.dropWhile (fun c => c ≠ 35)).drop 1

/-- ASCII control byte (`net/url` rejects URLs containing one). -/
def isCtl (c : Nat) : Bool := c < 32 || c == 127

/-- Every `%` is followed by two hex digits (fragment unescaping succeeds). -/
def validEscapes : GoStr → Bool
  | [] => true
  | 37 :: a :: b :: rest => isHexDigit a && isHexDigit b && validEscapes rest
  | 37 :: _ => false
  | _ :: rest => validEscapes rest

/-- The canonical query string `validSignature` computes: parse
`"?" + rqp` with `url.Parse` (control bytes before the fragment and bad
escapes in the fragment are errors), then `Query().Encode()`. -/
def canonQuery (rqp : GoStr) : Option GoStr :=
  if (preFrag rqp).any isCtl then none
  else if !validEscapes (fragPart rqp) then none
  else some (encodeValues (buildValues (parseQueryPairs (preFrag rqp))))

/-- The comparison loop of `crypto/subtle.ConstantTimeCompare` (reached via
`crypto/hmac.Equal`): OR together the XOR of every byte pair, counting the
iterations performed. -/
def ctLoop : List (Nat × Nat) → Nat → Nat × Nat
  | [], acc => (acc, 0)
  | p :: rest, acc =>
      let r := ctLoop rest (acc ||| (p.1 ^^^ p.2))
      (r.1, r.2 + 1)

/-- `crypto/subtle.ConstantTimeCompare`: false on unequal lengths, otherwise
true iff the accumulated OR of byte XORs is zero. -/
def constantTimeCompare (x y : GoStr) : Bool :=
  if x.length = y.length then (ctLoop (x.zip y) 0).1 == 0 else false

/-- The number of loop iterations `constantTimeCompare` performs. -/
def ctCompareSteps (x y : GoStr) : Nat :=
  if x.length = y.length then (ctLoop (x.zip y) 0).2 else 0

/-- One second, in the nanoseconds of `time.Duration`. -/
def second : Int := 1000000000

/-- Initial value of the package variable `ValidityWindow = 5 * time.Second`. -/
def ValidityWindow : Int := 5 * second

/-- A `*time.Duration`: either the address of the package variable
`ValidityWindow` or a pointer to a caller-owned duration. -/
inductive DurPtr where
  | global : DurPtr
  | heap : Int → DurPtr

/-- Dereference a duration pointer, given the current value `g` of the
package variable `ValidityWindow`. -/
def derefDur (g : Int) : DurPtr → Int
  | .global => g
  | .heap w => w

/-- The `Validator` struct: signing key and optional acceptance period. -/
structure Validator where
  SigningKey : GoStr
  Period : Option DurPtr

/-- `NewValidator`: the period points at the package variable. -/
def NewValidator (signingKey : GoStr) : Validator :=
  { SigningKey := signingKey, Period := some DurPtr.global }

/-- All-decimal-digit parse of a byte string (empty is a failure). -/
def parseDigits : GoStr → Option Nat
  | [] => none
  | l => l.foldlM (fun acc c => if 48 ≤ c ∧ c ≤ 57 then some (acc * 10 + (c - 48)) else none) 0

/-- `stringToTime` via `strconv.ParseInt(s, 10, 64)`: optional sign, decimal
digits, value within `int64`; the resulting `time.Unix(sec, 0)` instant is
represented by its epoch seconds. -/
def stringToTime (s : GoStr) : Option Int :=
  let signed : Bool × GoStr :=
    match s with
    | 43 :: rest => (false, rest)
    | 45 :: rest => (true, rest)
    | _ => (false, s)
  match parseDigits signed.2 with
  | none => none
  | some n =>
      let v : Int := if signed.1 then -(n : Int) else (n : Int)
      if v < -(2 ^ 63) ∨ (2 ^ 63 - 1 : Int) < v then none else some v

/-- `validTimestamp`: parse the timestamp; with no period it is valid, else
accept iff `0 < time.Now().Add(*Period / 2).Sub(t) < *Period` (durations in
nanoseconds, `now` the current instant, `g` the current value of
`ValidityWindow`). -/
def validTimestamp (g now : Int) (v : Validator) (ts : GoStr) : Bool :=
  match stringToTime ts with
  | none => false
  | some sec =>
      match v.Period with
      | none => true
      | some p =>
          let w := derefDur g p
          let diff := now + Int.tdiv w 2 - sec * second
          decide (diff < w) && decide (0 < diff)

/-- `calculateSignature`: HMAC-SHA256 over
`timestamp ++ "\n" ++ query ++ "\n" ++ SHA256(body)` (the SHA-256 digest is
appended as its raw 32 bytes) under the signing key. -/
def calculateSignature (v : Validator) (ts qp b : GoStr) : GoStr :=
  hMACSHA256 (ts ++ 10 :: qp ++ 10 :: sha256 b) v.SigningKey

/-- `validSignature`: canonicalize the raw query, compute the expected
signature, base64-decode the received one, and compare in constant time. -/
def validSignature (v : Validator) (ts rqp b : GoStr) (rs : GoStr) : Bool :=
  match canonQuery rqp with
  | none => false
  | some qp =>
      let es := calculateSignature v ts qp b
      match base64Decode rs with
      | none => false
      | some drs => constantTimeCompare drs es

/-- An inbound request as `ValidRequest` sees it: the two header lookups
(`Header.Get` yields the empty string when a header is absent), the host,
the raw query, and the readable body stream's remaining bytes. -/
structure Request where
  tsHeader : GoStr
  sHeader : GoStr
  host : GoStr
  rawQuery : GoStr
  body : GoStr

/-- The single error every failing validation returns:
`fmt.Errorf("Unknown host: %s", r.Host)`. -/
def unknownHostErr (host : GoStr) : GoStr := ascii "Unknown host: " ++ host

/-- `ValidRequest`: reject when a header is missing; otherwise drain the
body, check freshness then signature, and on success replace the body with
a buffer of the bytes read. Returns the verdict and the request as left
behind. -/
def ValidRequest (g now : Int) (v : Validator) (r : Request) :
    Except GoStr Unit × Request :=
  if r.tsHeader = [] ∨ r.sHeader = [] then
    (Except.error (unknownHostErr r.host), r)
  else
    let b := r.body
    let r1 : Request := { r with body := [] }
    if !validTimestamp g now v r.tsHeader || !validSignature v r.tsHeader r.rawQuery b r.sHeader then
      (Except.error (unknownHostErr r.host), r1)
    else
      (Except.ok (), { r1 with body := b })

/-- An HTTP response, reduced to status and body. -/
structure HTTPResponse where
  status : Nat
  body : GoStr

/-- `http.Error(w, "", http.StatusUnauthorized)`: status 401, body `"\n"`. -/
def unauthorizedResponse : HTTPResponse := { status := 401, body := [10] }

/-- `Validate`: wrap a handler so that an invalid request is answered with
401 Unauthorized and a valid one is passed on (with its restored body). -/
def Validate (g now : Int) (v : Validator) (h : Request → HTTPResponse)
    (r : Request) : HTTPResponse :=
  match ValidRequest g now v r with
  | (Except.error _, _) => unauthorizedResponse
  | (Except.ok _, r2) => h r2

/-- Lower-case hexadecimal digit of a value below 16. -/
def hexLower (v : Nat) : Nat := if v < 10 then 48 + v else 97 + (v - 10)

/-- Modelled from the spec: the hexadecimal rendering of a digest, the
alternative reading of `SHA256(body)` in the spec's signed-message formula
(`"1000000000\n\n" + hex/raw-sha256("")`), used only to settle which
reading the code implements. -/
def hexDigest (s : GoStr) : GoStr :=
  s.flatMap (fun b => [hexLower (b / 16), hexLower (b % 16)])

/-! ## Lemmas about the constant-time comparison -/

theorem nat_or_eq_zero (a b : Nat) : a ||| b = 0 ↔ a = 0 ∧ b = 0 := by
  constructor
  · intro h
    constructor <;> apply Nat.eq_of_testBit_eq <;> intro i <;>
      have hi := congrArg (fun n => Nat.testBit n i) h <;>
      simp only [Nat.testBit_or, Nat.zero_testBit, Bool.or_eq_false_iff] at hi
    · exact hi.1.trans (Nat.zero_testBit i).symm
    · exact hi.2.trans (Nat.zero_testBit i).symm
  · rintro ⟨rfl, rfl⟩
    rfl

theorem ctLoop_snd (l : List (Nat × Nat)) (acc : Nat) : (ctLoop l acc).2 = l.length := by
  induction l generalizing acc with
  | nil => rfl
  | cons p rest ih => simp [ctLoop, ih]

theorem ctLoop_fst_eq_zero (l : List (Nat × Nat)) (acc : Nat) :
    (ctLoop l acc).1 = 0 ↔ acc = 0 ∧ ∀ p ∈ l, p.1 = p.2 := by
  induction l generalizing acc with
  | nil => simp [ctLoop]
  | cons p rest ih =>
    simp only [ctLoop, List.mem_cons]
    rw [ih, nat_or_eq_zero, Nat.xor_eq_zero]
    constructor
    · rintro ⟨⟨h0, hp⟩, hrest⟩
      exact ⟨h0, fun q hq => hq.elim (fun e => e ▸ hp) (hrest q)⟩
    · rintro ⟨h0, hall⟩
      exact ⟨⟨h0, hall p (Or.inl rfl)⟩, fun q hq => hall q (Or.inr hq)⟩

theorem mem_zip_self (x : GoStr) : ∀ p ∈ x.zip x, p.1 = p.2 := by
  induction x with
  | nil => simp
  | cons a s ih =>
    rintro p hp
    rcases List.mem_cons.mp hp with rfl | hp
    · rfl
    · exact ih p hp

theorem zip_eq_iff (x : GoStr) : ∀ y : GoStr, x.length = y.length →
    ((∀ p ∈ x.zip y, p.1 = p.2) ↔ x = y) := by
  induction x with
  | nil =>
    intro y hy
    cases y with
    | nil => simp
    | cons b t => simp at hy
  | cons a s ih =>
    intro y hy
    cases y with
    | nil => simp at hy
    | cons b t =>
      simp only [List.zip_cons_cons, List.mem_cons, List.cons.injEq]
      rw [List.length_cons, List.length_cons] at hy
      constructor
      · intro h
        refine ⟨h (a, b) (Or.inl rfl), ((ih t (by omega)).mp ?_)⟩
        intro p hp
        exact h p (Or.inr hp)
      · rintro ⟨rfl, rfl⟩
        exact fun p hp => mem_zip_self (a :: s) p (List.mem_cons.mpr hp)

theorem constantTimeCompare_iff (x y : GoStr) (h : x.length = y.length) :
    constantTimeCompare x y = true ↔ x = y := by
  unfold constantTimeCompare
  rw [if_pos h, beq_iff_eq, ctLoop_fst_eq_zero]
  simp only [true_and]
  exact zip_eq_iff x y h

theorem constantTimeCompare_self (x : GoStr) : constantTimeCompare x x = true :=
  (constantTimeCompare_iff x x rfl).mpr rfl

theorem ctCompareSteps_lengths (x y x' y' : GoStr)
    (hx : x.length = x'.length) (hy : y.length = y'.length) :
    ctCompareSteps x y = ctCompareSteps x' y' := by
  unfold ctCompareSteps
  rw [ctLoop_snd, ctLoop_snd, List.length_zip, List.length_zip, hx, hy]

/-! ## Byte bounds of the hash outputs -/

theorem wordBytesBE_lt (w : Nat) : ∀ b ∈ wordBytesBE w, b < 256 := by
  simp only [wordBytesBE, List.mem_cons, List.not_mem_nil, or_false]
  rintro b (rfl | rfl | rfl | rfl) <;> omega

theorem stateBytes_lt (st : Hash8) : ∀ b ∈ stateBytes st, b < 256 := by
  intro b hb
  simp only [stateBytes, List.mem_append] at hb
  rcases hb with ((((((h | h) | h) | h) | h) | h) | h) | h <;> exact wordBytesBE_lt _ b h

theorem sha256_lt (m : GoStr) : ∀ b ∈ sha256 m, b < 256 :=
  stateBytes_lt _

theorem hMACSHA256_lt (message key : GoStr) : ∀ b ∈ hMACSHA256 message key, b < 256 :=
  stateBytes_lt _

theorem calculateSignature_lt (v : Validator) (ts qp b : GoStr) :
    ∀ c ∈ calculateSignature v ts qp b, c < 256 :=
  stateBytes_lt _

/-! ## Base64 round-trip -/

theorem b64alpha_spec : ∀ v < 64, b64val (b64alpha v) = some v ∧
    b64alpha v ≠ 10 ∧ b64alpha v ≠ 13 ∧ b64alpha v ≠ 61 := by decide

theorem base64Encode_mem : ∀ l : GoStr, (∀ b ∈ l, b < 256) →
    ∀ c ∈ base64Encode l, c = 61 ∨ ∃ v, v < 64 ∧ c = b64alpha v
  | [], _, c, hc => by simp [base64Encode] at hc
  | [a], h, c, hc => by
    have ha : a < 256 := h a (by simp)
    simp only [base64Encode, List.mem_cons, List.not_mem_nil, or_false] at hc
    rcases hc with rfl | rfl | rfl | rfl
    · exact Or.inr ⟨a / 4, by omega, rfl⟩
    · exact Or.inr ⟨a % 4 * 16, by omega, rfl⟩
    · exact Or.inl rfl
    · exact Or.inl rfl
  | [a, b], h, c, hc => by
    have ha : a < 256 := h a (by simp)
    have hb : b < 256 := h b (by simp)
    simp only [base64Encode, List.mem_cons, List.not_mem_nil, or_false] at hc
    rcases hc with rfl | rfl | rfl | rfl
    · exact Or.inr ⟨a / 4, by omega, rfl⟩
    · exact Or.inr ⟨a % 4 * 16 + b / 16, by omega, rfl⟩
    · exact Or.inr ⟨b % 16 * 4, by omega, rfl⟩
    · exact Or.inl rfl
  | a :: b :: c0 :: rest, h, c, hc => by
    have ha : a < 256 := h a (by simp)
    have hb : b < 256 := h b (by simp)
    have hc0 : c0 < 256 := h c0 (by simp)
    simp only [base64Encode, List.mem_cons] at hc
    rcases hc with rfl | rfl | rfl | rfl | hmem
    · exact Or.inr ⟨a / 4, by omega, rfl⟩
    · exact Or.inr ⟨a % 4 * 16 + b / 16, by omega, rfl⟩
    · exact Or.inr ⟨b % 16 * 4 + c0 / 64, by omega, rfl⟩
    · exact Or.inr ⟨c0 % 64, by omega, rfl⟩
    · exact base64Encode_mem rest (fun x hx => h x (by simp [hx])) c hmem

theorem base64Encode_no_crlf (l : GoStr) (hl : ∀ b ∈ l, b < 256) :
    (base64Encode l).filter (fun c => !(c == 10 || c == 13)) = base64Encode l := by
  rw [List.filter_eq_self]
  intro c hc
  rcases base64Encode_mem l hl c hc with rfl | ⟨v, hv, rfl⟩
  · decide
  · have := (b64alpha_spec v hv).2
    simp only [Bool.not_eq_eq_eq_not, Bool.not_true, Bool.or_eq_false_iff, beq_eq_false_iff_ne,
      ne_eq]
    exact ⟨this.1, this.2.1⟩

theorem b64Chunks_encode : ∀ l : GoStr, (∀ b ∈ l, b < 256) →
    b64Chunks (base64Encode l) = some l
  | [], _ => rfl
  | [a], h => by
    have ha : a < 256 := h a (by simp)
    have h1 := (b64alpha_spec (a / 4) (by omega)).1
    have h2 := (b64alpha_spec (a % 4 * 16) (by omega)).1
    simp only [base64Encode, b64Chunks, h1, h2, if_pos rfl, and_self, if_true,
      Option.some.injEq, List.cons.injEq, and_true]
    omega
  | [a, b], h => by
    have ha : a < 256 := h a (by simp)
    have hb : b < 256 := h b (by simp)
    have h1 := (b64alpha_spec (a / 4) (by omega)).1
    have h2 := (b64alpha_spec (a % 4 * 16 + b / 16) (by omega)).1
    have h3s := b64alpha_spec (b % 16 * 4) (by omega)
    simp only [base64Encode, b64Chunks, h1, h2, h3s.1, if_neg h3s.2.2.2, if_pos rfl, if_true,
      Option.some.injEq, List.cons.injEq, and_true]
    omega
  | [a, b, c], h => by
    have ha : a < 256 := h a (by simp)
    have hb : b < 256 := h b (by simp)
    have hc : c < 256 := h c (by simp)
    have h1 := (b64alpha_spec (a / 4) (by omega)).1
    have h2 := (b64alpha_spec (a % 4 * 16 + b / 16) (by omega)).1
    have h3s := b64alpha_spec (b % 16 * 4 + c / 64) (by omega)
    have h4s := b64alpha_spec (c % 64) (by omega)
    simp only [base64Encode, b64Chunks, h1, h2, h3s.1, h4s.1, if_neg h3s.2.2.2,
      if_neg h4s.2.2.2, Option.map_some, Option.map_some', Option.some.injEq, List.cons.injEq, and_true]
    omega
  | a :: b :: c :: d :: rest, h => by
    have ha : a < 256 := h a (by simp)
    have hb : b < 256 := h b (by simp)
    have hc : c < 256 := h c (by simp)
    have h1 := (b64alpha_spec (a / 4) (by omega)).1
    have h2 := (b64alpha_spec (a % 4 * 16 + b / 16) (by omega)).1
    have h3s := b64alpha_spec (b % 16 * 4 + c / 64) (by omega)
    have h4s := b64alpha_spec (c % 64) (by omega)
    have ih := b64Chunks_encode (d :: rest) (fun x hx => h x (by simp [List.mem_cons] at hx ⊢; tauto))
    simp only [base64Encode, b64Chunks, h1, h2, h3s.1, h4s.1, if_neg h3s.2.2.2,
      if_neg h4s.2.2.2, ih, Option.map_some, Option.map_some', Option.some.injEq, List.cons.injEq, and_true,
      true_and]
    omega

/-- Base64 decoding inverts encoding on byte strings. -/
theorem base64_decode_encode (l : GoStr) (h : ∀ b ∈ l, b < 256) :
    base64Decode (base64Encode l) = some l := by
  unfold base64Decode
  rw [base64Encode_no_crlf l h, b64Chunks_encode l h]

/-! ## Helper lemmas about `ValidRequest` -/

instance : DecidableEq (Except GoStr Unit) := fun x y =>
  match x, y with
  | .error a, .error b =>
      if h : a = b then isTrue (by rw [h]) else isFalse (by simp [h])
  | .ok a, .ok b => isTrue (by cases a; cases b; rfl)
  | .error _, .ok _ => isFalse (by simp)
  | .ok _, .error _ => isFalse (by simp)

theorem ValidRequest_error_eq (g now : Int) (v : Validator) (r : Request) (e : GoStr)
    (h : (ValidRequest g now v r).1 = Except.error e) : e = unknownHostErr r.host := by
  unfold ValidRequest at h
  by_cases h1 : r.tsHeader = [] ∨ r.sHeader = []
  · rw [if_pos h1] at h
    exact (Except.error.injEq _ _).mp h.symm
  · rw [if_neg h1] at h
    dsimp only at h
    by_cases h2 : (!validTimestamp g now v r.tsHeader ||
        !validSignature v r.tsHeader r.rawQuery r.body r.sHeader) = true
    · rw [if_pos h2] at h
      exact (Except.error.injEq _ _).mp h.symm
    · rw [if_neg h2] at h
      exact absurd h (by simp)

theorem Validate_of_error (g now : Int) (v : Validator) (r : Request) (e : GoStr)
    (hnd : Request → HTTPResponse) (h : (ValidRequest g now v r).1 = Except.error e) :
    Validate g now v hnd r = unauthorizedResponse := by
  unfold Validate
  have hpair : ValidRequest g now v r = (Except.error e, (ValidRequest g now v r).2) :=
    Prod.ext h rfl
  rw [hpair]

/-! ## The claims -/

/-- C1: Round-trip — for every signing key, period, timestamp, body, and raw
query string whose canonicalization succeeds, verifying (with
`validSignature`) the base64 encoding of the signature `calculateSignature`
produces over the same key, timestamp, canonicalized query, and body
returns `true`. -/
theorem C1_signature_roundtrip (key ts rqp b cq : GoStr) (p : Option DurPtr)
    (h : canonQuery rqp = some cq) :
    validSignature ⟨key, p⟩ ts rqp b
      (base64Encode (calculateSignature ⟨key, p⟩ ts cq b)) = true := by
  unfold validSignature
  rw [h, base64_decode_encode _ (calculateSignature_lt _ _ _ _)]
  exact constantTimeCompare_self _

theorem C1_signature_roundtrip_witness :
    canonQuery (ascii "b=2&a=1") = some (ascii "a=1&b=2") ∧
    validSignature ⟨ascii "secret", none⟩ (ascii "10") (ascii "b=2&a=1") (ascii "x")
      (base64Encode (calculateSignature ⟨ascii "secret", none⟩ (ascii "10")
        (ascii "a=1&b=2") (ascii "x"))) = true :=
  ⟨by decide, C1_signature_roundtrip (ascii "secret") (ascii "10") (ascii "b=2&a=1")
    (ascii "x") (ascii "a=1&b=2") none (by decide)⟩

/-- C2: Freshness check — with a configured window `W`, a parseable timestamp
is accepted iff `0 < (now + W/2) - t < W`, both inequalities strict; in
particular with `W` five seconds, `diff = 0` and `diff = W` are rejected and
a timestamp equal to `now` (`diff = W/2`) is accepted. -/
theorem C2_freshness_window :
    (∀ (g now : Int) (v : Validator) (p : DurPtr) (ts : GoStr) (sec : Int),
      v.Period = some p → stringToTime ts = some sec →
      (validTimestamp g now v ts = true ↔
        (0 < now + Int.tdiv (derefDur g p) 2 - sec * second ∧
         now + Int.tdiv (derefDur g p) 2 - sec * second < derefDur g p))) ∧
    (∀ (g now : Int) (v : Validator) (p : DurPtr) (ts : GoStr) (sec : Int),
      v.Period = some p → derefDur g p = 5 * second → stringToTime ts = some sec →
      ((now + Int.tdiv (5 * second) 2 - sec * second = 0 →
          validTimestamp g now v ts = false) ∧
       (now + Int.tdiv (5 * second) 2 - sec * second = 5 * second →
          validTimestamp g now v ts = false) ∧
       (sec * second = now → validTimestamp g now v ts = true))) := by
  have main : ∀ (g now : Int) (v : Validator) (p : DurPtr) (ts : GoStr) (sec : Int),
      v.Period = some p → stringToTime ts = some sec →
      (validTimestamp g now v ts = true ↔
        (0 < now + Int.tdiv (derefDur g p) 2 - sec * second ∧
         now + Int.tdiv (derefDur g p) 2 - sec * second < derefDur g p)) := by
    intro g now v p ts sec hp hts
    unfold validTimestamp
    rw [hts, hp]
    simp only [Bool.and_eq_true, decide_eq_true_eq]
    constructor
    · exact fun h => ⟨h.2, h.1⟩
    · exact fun h => ⟨h.2, h.1⟩
  refine ⟨main, ?_⟩
  intro g now v p ts sec hp hw hts
  have h52 : Int.tdiv (5 * second) 2 = 2500000000 := by decide
  have hiff := main g now v p ts sec hp hts
  rw [hw] at hiff
  refine ⟨?_, ?_, ?_⟩
  · intro h0
    rw [Bool.eq_false_iff]
    intro htrue
    have := hiff.mp htrue
    rw [h52] at h0 this
    simp only [second] at h0 this
    omega
  · intro h0
    rw [Bool.eq_false_iff]
    intro htrue
    have := hiff.mp htrue
    rw [h52] at h0 this
    simp only [second] at h0 this
    omega
  · intro h0
    apply hiff.mpr
    rw [h52, ← h0]
    simp only [second]
    omega

theorem C2_freshness_window_witness :
    validTimestamp 0 0 ⟨[], some (DurPtr.heap 5000000000)⟩ (ascii "0") = true ∧
    validTimestamp 0 2500000000 ⟨[], some (DurPtr.heap 5000000000)⟩ (ascii "0") = false ∧
    validTimestamp 0 (-2500000000) ⟨[], some (DurPtr.heap 5000000000)⟩ (ascii "0") = false :=
  ⟨(C2_freshness_window.1 0 0 ⟨[], some (DurPtr.heap 5000000000)⟩ (DurPtr.heap 5000000000)
      (ascii "0") 0 rfl (by decide)).mpr (by decide),
   (C2_freshness_window.2 0 2500000000 ⟨[], some (DurPtr.heap 5000000000)⟩
      (DurPtr.heap 5000000000) (ascii "0") 0 rfl (by decide) (by decide)).2.1 (by decide),
   (C2_freshness_window.2 0 (-2500000000) ⟨[], some (DurPtr.heap 5000000000)⟩
      (DurPtr.heap 5000000000) (ascii "0") 0 rfl (by decide) (by decide)).1 (by decide)⟩

/-- C7: Disabled window — with `Period = nil` every timestamp that parses as
a Unix epoch integer is accepted, however far in the past or future, and
every string that does not parse is rejected. -/
theorem C7_disabled_window (g now : Int) (v : Validator) (ts : GoStr)
    (h : v.Period = none) :
    validTimestamp g now v ts = true ↔ (stringToTime ts).isSome := by
  unfold validTimestamp
  cases hst : stringToTime ts <;> simp [h, hst]

theorem C7_disabled_window_witness :
    validTimestamp 0 0 ⟨[], none⟩ (ascii "9000000000000000000") = true ∧
    validTimestamp 0 0 ⟨[], none⟩ (ascii "-9000000000000000000") = true ∧
    validTimestamp 0 0 ⟨[], none⟩ (ascii "20abc") = false :=
  ⟨(C7_disabled_window 0 0 ⟨[], none⟩ (ascii "9000000000000000000") rfl).mpr (by decide),
   (C7_disabled_window 0 0 ⟨[], none⟩ (ascii "-9000000000000000000") rfl).mpr (by decide),
   by
    rw [Bool.eq_false_iff]
    intro htrue
    exact absurd ((C7_disabled_window 0 0 ⟨[], none⟩ (ascii "20abc") rfl).mp htrue)
      (by decide)⟩

/-- C8: Default window — `NewValidator` stores a pointer to the package
variable `ValidityWindow` (initially five seconds), so the window a
previously constructed validator uses is always the variable's current
value `g`: mutating the process-wide default changes existing validators. -/
theorem C8_default_window (k : GoStr) :
    (NewValidator k).Period = some DurPtr.global ∧
    ValidityWindow = 5 * second ∧
    (∀ (g now : Int) (ts : GoStr) (sec : Int), stringToTime ts = some sec →
      (validTimestamp g now (NewValidator k) ts = true ↔
        (0 < now + Int.tdiv g 2 - sec * second ∧
         now + Int.tdiv g 2 - sec * second < g))) := by
  refine ⟨rfl, rfl, ?_⟩
  intro g now ts sec hts
  unfold validTimestamp NewValidator
  rw [hts]
  simp only [derefDur, Bool.and_eq_true, decide_eq_true_eq]
  constructor
  · exact fun h => ⟨h.2, h.1⟩
  · exact fun h => ⟨h.2, h.1⟩

theorem C8_default_window_witness :
    (NewValidator (ascii "k")).Period = some DurPtr.global ∧
    ValidityWindow = 5 * second ∧
    validTimestamp (2 * second) 0 (NewValidator (ascii "k")) (ascii "0") = true ∧
    validTimestamp 0 0 (NewValidator (ascii "k")) (ascii "0") = false :=
  have h := C8_default_window (ascii "k")
  ⟨h.1, h.2.1,
   (h.2.2 (2 * second) 0 (ascii "0") 0 (by decide)).mpr (by decide),
   by
    rw [Bool.eq_false_iff]
    intro htrue
    have := (h.2.2 0 0 (ascii "0") 0 (by decide)).mp htrue
    simp only [second] at this
    omega⟩

/-- C9: Constant-time comparison — the byte comparison `validSignature`
performs (`crypto/hmac.Equal`, i.e. `subtle.ConstantTimeCompare`) runs a
number of loop iterations determined by the operand lengths alone, never
short-circuiting at the first differing byte, and it decides equality. -/
theorem C9_constant_time (x y xp yp : GoStr)
    (hx : x.length = xp.length) (hy : y.length = yp.length) :
    ctCompareSteps x y = ctCompareSteps xp yp ∧
    (x.length = y.length → (constantTimeCompare x y = true ↔ x = y)) :=
  ⟨ctCompareSteps_lengths x y xp yp hx hy, fun h => constantTimeCompare_iff x y h⟩

theorem C9_constant_time_witness :
    ctCompareSteps [0, 255] [255, 0] = ctCompareSteps [7, 7] [7, 7] ∧
    (constantTimeCompare [0, 255] [255, 0] = true ↔ ([0, 255] : GoStr) = [255, 0]) :=
  have h := C9_constant_time [0, 255] [255, 0] [7, 7] [7, 7] (by decide) (by decide)
  ⟨h.1, h.2 (by decide)⟩

/-- C5: Uniform rejection — whichever check fails, `ValidRequest` returns
the one error built from the request host, two failing requests with the
same host yield the same error value, and the `Validate` wrapper answers
every failure with the same 401 response. -/
theorem C5_uniform_rejection (g now : Int) (v : Validator) (r : Request) (e : GoStr)
    (h : (ValidRequest g now v r).1 = Except.error e) :
    e = unknownHostErr r.host ∧
    (∀ hnd : Request → HTTPResponse, Validate g now v hnd r = unauthorizedResponse) ∧
    (∀ (g2 now2 : Int) (v2 : Validator) (r2 : Request) (e2 : GoStr),
      (ValidRequest g2 now2 v2 r2).1 = Except.error e2 → r2.host = r.host → e2 = e) :=
  ⟨ValidRequest_error_eq g now v r e h,
   fun hnd => Validate_of_error g now v r e hnd h,
   fun g2 now2 v2 r2 e2 h2 hh => by
    rw [ValidRequest_error_eq g2 now2 v2 r2 e2 h2, hh,
      ValidRequest_error_eq g now v r e h]⟩

theorem C5_uniform_rejection_witness :
    (ValidRequest 0 0 ⟨[], none⟩ ⟨[], ascii "sig", ascii "h", [], []⟩).1 =
      Except.error (ascii "Unknown host: h") ∧
    ascii "Unknown host: h" = unknownHostErr (ascii "h") ∧
    Validate 0 0 ⟨[], none⟩ (fun _ => ⟨200, []⟩) ⟨[], ascii "sig", ascii "h", [], []⟩ =
      unauthorizedResponse ∧
    (ValidRequest 0 0 ⟨[], none⟩ ⟨ascii "nope", ascii "***", ascii "h", [], []⟩).1 =
      Except.error (ascii "Unknown host: h") :=
  have h1 : (ValidRequest 0 0 ⟨[], none⟩ ⟨[], ascii "sig", ascii "h", [], []⟩).1 =
      Except.error (ascii "Unknown host: h") := by decide
  have h2 : (ValidRequest 0 0 ⟨[], none⟩ ⟨ascii "nope", ascii "***", ascii "h", [], []⟩).1 =
      Except.error (ascii "Unknown host: h") := by decide
  have hc := C5_uniform_rejection 0 0 ⟨[], none⟩ ⟨[], ascii "sig", ascii "h", [], []⟩
    (ascii "Unknown host: h") h1
  ⟨h1, hc.1, hc.2.1 (fun _ => ⟨200, []⟩), h2⟩

/-- C6: Body restoration on success — when `ValidRequest` succeeds, the
request it leaves behind carries exactly the original body bytes, readable
from the beginning. -/
theorem C6_body_restored (g now : Int) (v : Validator) (r : Request)
    (h : (ValidRequest g now v r).1 = Except.ok ()) :
    ((ValidRequest g now v r).2).body = r.body := by
  unfold ValidRequest at h ⊢
  by_cases h1 : r.tsHeader = [] ∨ r.sHeader = []
  · rw [if_pos h1] at h
    exact absurd h (by simp)
  · rw [if_neg h1] at h ⊢
    dsimp only at h ⊢
    by_cases h2 : (!validTimestamp g now v r.tsHeader ||
        !validSignature v r.tsHeader r.rawQuery r.body r.sHeader) = true
    · rw [if_pos h2] at h
      exact absurd h (by simp)
    · rw [if_neg h2]

theorem C6_body_restored_witness :
    (ValidRequest 0 0 ⟨[], none⟩ ⟨ascii "0",
      ascii "BVmSEflQ2giqdQq11f7EDGC/laRMsw+FiaokYk23T0o=", ascii "h", [], ascii "hi"⟩).1 =
      Except.ok () ∧
    ((ValidRequest 0 0 ⟨[], none⟩ ⟨ascii "0",
      ascii "BVmSEflQ2giqdQq11f7EDGC/laRMsw+FiaokYk23T0o=", ascii "h", [], ascii "hi"⟩).2).body =
      ascii "hi" :=
  have h : (ValidRequest 0 0 ⟨[], none⟩ ⟨ascii "0",
      ascii "BVmSEflQ2giqdQq11f7EDGC/laRMsw+FiaokYk23T0o=", ascii "h", [], ascii "hi"⟩).1 =
      Except.ok () := by decide
  ⟨h, C6_body_restored 0 0 ⟨[], none⟩ ⟨ascii "0",
      ascii "BVmSEflQ2giqdQq11f7EDGC/laRMsw+FiaokYk23T0o=", ascii "h", [], ascii "hi"⟩ h⟩

/-- C10: Body consumed on failure — when both headers are present but a
check fails, `ValidRequest` leaves the body drained (empty); when a header
is missing it returns before touching the request at all. -/
theorem C10_body_on_failure (g now : Int) (v : Validator) (r : Request) :
    (r.tsHeader ≠ [] → r.sHeader ≠ [] →
      ∀ e, (ValidRequest g now v r).1 = Except.error e →
        ((ValidRequest g now v r).2).body = []) ∧
    ((r.tsHeader = [] ∨ r.sHeader = []) → (ValidRequest g now v r).2 = r) := by
  constructor
  · intro hts hs e herr
    unfold ValidRequest at herr ⊢
    have h1 : ¬(r.tsHeader = [] ∨ r.sHeader = []) := by tauto
    rw [if_neg h1] at herr ⊢
    dsimp only at herr ⊢
    by_cases h2 : (!validTimestamp g now v r.tsHeader ||
        !validSignature v r.tsHeader r.rawQuery r.body r.sHeader) = true
    · rw [if_pos h2]
    · rw [if_neg h2] at herr
      exact absurd herr (by simp)
  · intro hmiss
    unfold ValidRequest
    rw [if_pos hmiss]

theorem C10_body_on_failure_witness :
    ((ValidRequest 0 0 ⟨[], none⟩ ⟨ascii "x", ascii "sig", ascii "h", [], ascii "body"⟩).2).body
      = [] ∧
    (ValidRequest 0 0 ⟨[], none⟩ ⟨[], ascii "sig", ascii "h", [], ascii "body"⟩).2 =
      ⟨[], ascii "sig", ascii "h", [], ascii "body"⟩ :=
  ⟨(C10_body_on_failure 0 0 ⟨[], none⟩
      ⟨ascii "x", ascii "sig", ascii "h", [], ascii "body"⟩).1 (by decide) (by decide)
      (ascii "Unknown host: h") (by decide),
   (C10_body_on_failure 0 0 ⟨[], none⟩
      ⟨[], ascii "sig", ascii "h", [], ascii "body"⟩).2 (by decide)⟩

/-- C3: Signed-message layout — `calculateSignature` computes
`HMAC_SHA256(key, ts ++ "\n" ++ qp ++ "\n" ++ SHA256(body))` with the body
digest appended as its raw 32 bytes; on the fixture (key `"secret"`,
timestamp `"1000000000"`, empty query and body) the base64 signature equals
the spec formula's value read with the raw digest, and differs from its
reading with the hexadecimal digest. -/
theorem C3_signed_message_layout :
    (∀ (v : Validator) (ts qp b : GoStr),
      calculateSignature v ts qp b =
        hMACSHA256 (ts ++ 10 :: qp ++ 10 :: sha256 b) v.SigningKey) ∧
    base64Encode (calculateSignature ⟨ascii "secret", none⟩ (ascii "1000000000") [] []) =
      ascii "y7lSmweFqLC5558DvtCkAwmVYOdlmmBgEsmMMCxJ58c=" ∧
    calculateSignature ⟨ascii "secret", none⟩ (ascii "1000000000") [] [] =
      hMACSHA256 (ascii "1000000000" ++ 10 :: 10 :: sha256 []) (ascii "secret") ∧
    calculateSignature ⟨ascii "secret", none⟩ (ascii "1000000000") [] [] ≠
      hMACSHA256 (ascii "1000000000" ++ 10 :: 10 :: hexDigest (sha256 []))
        (ascii "secret") :=
  ⟨fun v ts qp b => rfl, by decide, rfl, by decide⟩

/-! ## The byte-wise string order used for query keys -/

theorem strLt_nil : ∀ a : GoStr, strLt a [] = false
  | [] => rfl
  | _ :: _ => rfl

theorem strLt_irrefl : ∀ a : GoStr, strLt a a = false
  | [] => rfl
  | c :: t => by
    unfold strLt
    rw [if_neg (lt_irrefl c), if_neg (lt_irrefl c)]
    exact strLt_irrefl t

theorem strLt_asymm : ∀ a b : GoStr, strLt a b = true → strLt b a = false
  | [], [] => by simp [strLt]
  | [], _ :: _ => by
    intro _
    exact strLt_nil _
  | _ :: _, [] => by simp [strLt]
  | a :: s, b :: t => by
    intro h
    unfold strLt at h ⊢
    by_cases hab : a < b
    · rw [if_neg (by omega), if_pos hab]
    · rw [if_neg hab] at h
      by_cases hba : b < a
      · rw [if_pos hba] at h
        exact absurd h (by simp)
      · rw [if_neg hba] at h
        rw [if_neg hba, if_neg hab]
        exact strLt_asymm s t h

theorem strLt_antisymm : ∀ a b : GoStr, strLt a b = false → strLt b a = false → a = b
  | [], [] => fun _ _ => rfl
  | [], _ :: _ => by simp [strLt]
  | _ :: _, [] => by
    intro _ h2
    exact absurd h2 (by simp [strLt])
  | a :: s, b :: t => by
    intro h1 h2
    unfold strLt at h1 h2
    by_cases hab : a < b
    · rw [if_pos hab] at h1
      exact absurd h1 (by simp)
    · by_cases hba : b < a
      · rw [if_pos hba] at h2
        exact absurd h2 (by simp)
      · rw [if_neg hab, if_neg hba] at h1
        rw [if_neg hba, if_neg hab] at h2
        have hh : a = b := by omega
        rw [hh, strLt_antisymm s t h1 h2]

theorem strLt_trans : ∀ a b c : GoStr, strLt a b = true → strLt b c = true → strLt a c = true
  | _, [], _ => by
    intro h1 _
    rw [strLt_nil] at h1
    exact absurd h1 (by simp)
  | _, _ :: _, [] => by
    intro _ h2
    rw [strLt_nil] at h2
    exact absurd h2 (by simp)
  | [], _ :: _, _ :: _ => fun _ _ => rfl
  | a :: s, b :: t, c :: u => by
    intro h1 h2
    unfold strLt at h1 h2 ⊢
    by_cases hab : a < b <;> by_cases hbc : b < c
    · rw [if_pos (by omega)]
    · rw [if_neg hbc] at h2
      by_cases hcb : c < b
      · rw [if_pos hcb] at h2
        exact absurd h2 (by simp)
      · have : b = c := by omega
        rw [if_pos (by omega)]
    · rw [if_neg hab] at h1
      by_cases hba : b < a
      · rw [if_pos hba] at h1
        exact absurd h1 (by simp)
      · have : a = b := by omega
        rw [if_pos (by omega)]
    · rw [if_neg hab] at h1
      rw [if_neg hbc] at h2
      by_cases hba : b < a
      · rw [if_pos hba] at h1
        exact absurd h1 (by simp)
      · by_cases hcb : c < b
        · rw [if_pos hcb] at h2
          exact absurd h2 (by simp)
        · rw [if_neg hba] at h1
          rw [if_neg hcb] at h2
          have hac : ¬ a < c := by omega
          have hca : ¬ c < a := by omega
          rw [if_neg hac, if_neg hca]
          exact strLt_trans s t u h1 h2

instance : IsTotal GoStr strLe :=
  ⟨fun a b => by
    unfold strLe
    by_cases h : strLt b a = true
    · exact Or.inr (strLt_asymm b a h)
    · exact Or.inl (by simpa using h)⟩

instance : IsTrans GoStr strLe :=
  ⟨fun a b c hab hbc => by
    unfold strLe at hab hbc ⊢
    rcases Bool.eq_false_or_eq_true (strLt c a) with h | h
    · exfalso
      rcases Bool.eq_false_or_eq_true (strLt b c) with hbc2 | hbc2
      · have : strLt b a = true := strLt_trans b c a hbc2 h
        rw [this] at hab
        simp at hab
      · have hbceq : b = c := strLt_antisymm b c hbc2 hbc
        rw [hbceq] at hab
        rw [hab] at h
        simp at h
    · exact h⟩

instance : IsAntisymm GoStr strLe :=
  ⟨fun a b hab hba => strLt_antisymm a b hba hab⟩

/-! ## Canonicalization under reordering of distinct keys -/

theorem addPair_fresh : ∀ (m : List (GoStr × List GoStr)) (k v : GoStr),
    (∀ q ∈ m, q.1 ≠ k) → addPair m k v = m ++ [(k, [v])]
  | [], _, _, _ => rfl
  | (k0, vs) :: rest, k, v, h => by
    unfold addPair
    rw [if_neg (h (k0, vs) (List.mem_cons_self _ _)),
      addPair_fresh rest k v (fun q hq => h q (List.mem_cons_of_mem _ hq))]
    rfl

theorem buildValues_aux : ∀ (l : List (GoStr × GoStr)) (acc : List (GoStr × List GoStr)),
    (l.map Prod.fst).Nodup → (∀ p ∈ l, ∀ q ∈ acc, q.1 ≠ p.1) →
    l.foldl (fun m p => addPair m p.1 p.2) acc = acc ++ l.map (fun p => (p.1, [p.2]))
  | [], acc, _, _ => by simp
  | p :: l, acc, hn, hd => by
    rw [List.map_cons, List.nodup_cons] at hn
    simp only [List.foldl_cons]
    rw [addPair_fresh acc p.1 p.2 (fun q hq => hd p (List.mem_cons_self _ _) q hq)]
    rw [buildValues_aux l (acc ++ [(p.1, [p.2])]) hn.2 ?fresh]
    · simp
    case fresh =>
      intro p2 hp2 q hq
      rcases List.mem_append.mp hq with hq1 | hq1
      · exact hd p2 (List.mem_cons_of_mem _ hp2) q hq1
      · have hq2 : q = (p.1, [p.2]) := by simpa using hq1
        rw [hq2]
        intro hcontra
        exact hn.1 (hcontra ▸ List.mem_map_of_mem Prod.fst hp2)

theorem buildValues_nodup (l : List (GoStr × GoStr)) (hn : (l.map Prod.fst).Nodup) :
    buildValues l = l.map (fun p => (p.1, [p.2])) := by
  unfold buildValues
  rw [buildValues_aux l [] hn (by simp)]
  simp

theorem key_unique (l : List (GoStr × GoStr)) (hn : (l.map Prod.fst).Nodup)
    (p q : GoStr × GoStr) (hp : p ∈ l) (hq : q ∈ l) (he : p.1 = q.1) : p = q := by
  induction l with
  | nil => simp at hp
  | cons a t ih =>
    rw [List.map_cons, List.nodup_cons] at hn
    rcases List.mem_cons.mp hp with rfl | hp2 <;> rcases List.mem_cons.mp hq with rfl | hq2
    · rfl
    · exact absurd (he ▸ List.mem_map_of_mem Prod.fst hq2) hn.1
    · exact absurd (he ▸ List.mem_map_of_mem Prod.fst hp2) hn.1
    · exact ih hn.2 hp2 hq2

theorem find_key_perm (l1 l2 : List (GoStr × GoStr)) (hp : l1.Perm l2)
    (hn : (l1.map Prod.fst).Nodup) (k : GoStr) :
    l1.find? (fun p => p.1 == k) = l2.find? (fun p => p.1 == k) := by
  cases hf : l1.find? (fun p => p.1 == k) with
  | none =>
    rw [List.find?_eq_none] at hf
    symm
    rw [List.find?_eq_none]
    exact fun x hx => hf x (hp.mem_iff.mpr hx)
  | some p =>
    have hpr := List.find?_some hf
    have hpm : p ∈ l1 := List.mem_of_find?_eq_some hf
    cases hf2 : l2.find? (fun p => p.1 == k) with
    | none =>
      rw [List.find?_eq_none] at hf2
      exact absurd hpr (by simpa using hf2 p (hp.mem_iff.mp hpm))
    | some q =>
      have hqr := List.find?_some hf2
      have hqm : q ∈ l2 := List.mem_of_find?_eq_some hf2
      have : p = q := key_unique l1 hn p q hpm (hp.mem_iff.mpr hqm)
        (by rw [beq_iff_eq.mp hpr, beq_iff_eq.mp hqr])
      rw [this]

theorem lookupVals_sing : ∀ (l : List (GoStr × GoStr)) (k : GoStr),
    lookupVals (l.map (fun p => (p.1, [p.2]))) k =
      (match l.find? (fun p => p.1 == k) with
        | some p => [p.2]
        | none => [])
  | [], _ => rfl
  | p :: l, k => by
    by_cases h : (p.1 == k) = true
    · rw [List.map_cons]
      unfold lookupVals
      simp only [List.find?, h]
      rfl
    · have h2 : (p.1 == k) = false := by simpa using h
      rw [List.map_cons]
      unfold lookupVals
      simp only [List.find?, h2]
      exact lookupVals_sing l k

theorem encodeValues_perm (l1 l2 : List (GoStr × GoStr)) (hp : l1.Perm l2)
    (hn : (l1.map Prod.fst).Nodup) :
    encodeValues (buildValues l1) = encodeValues (buildValues l2) := by
  have hpf : (l1.map Prod.fst).Perm (l2.map Prod.fst) := hp.map Prod.fst
  have hn2 : (l2.map Prod.fst).Nodup := hpf.nodup_iff.mp hn
  rw [buildValues_nodup l1 hn, buildValues_nodup l2 hn2]
  unfold encodeValues
  have hmf1 : (l1.map (fun p => (p.1, [p.2]))).map Prod.fst = l1.map Prod.fst := by
    rw [List.map_map]
    rfl
  have hmf2 : (l2.map (fun p => (p.1, [p.2]))).map Prod.fst = l2.map Prod.fst := by
    rw [List.map_map]
    rfl
  have hkeys : List.insertionSort strLe ((l1.map (fun p => (p.1, [p.2]))).map Prod.fst) =
      List.insertionSort strLe ((l2.map (fun p => (p.1, [p.2]))).map Prod.fst) := by
    have s1 := List.perm_insertionSort strLe ((l1.map (fun p => (p.1, [p.2]))).map Prod.fst)
    have s2 := List.perm_insertionSort strLe ((l2.map (fun p => (p.1, [p.2]))).map Prod.fst)
    have hmid : ((l1.map (fun p => (p.1, [p.2]))).map Prod.fst).Perm
        ((l2.map (fun p => (p.1, [p.2]))).map Prod.fst) := by
      rw [hmf1, hmf2]
      exact hpf
    exact List.eq_of_perm_of_sorted (s1.trans (hmid.trans s2.symm))
      (List.sorted_insertionSort _ _) (List.sorted_insertionSort _ _)
  dsimp only
  rw [hkeys]
  have hlook : (fun k => (lookupVals (l1.map (fun p => (p.1, [p.2]))) k).map
        (fun v => queryEscape k ++ 61 :: queryEscape v)) =
      (fun k => (lookupVals (l2.map (fun p => (p.1, [p.2]))) k).map
        (fun v => queryEscape k ++ 61 :: queryEscape v)) := by
    funext k
    rw [lookupVals_sing l1 k, lookupVals_sing l2 k, find_key_perm l1 l2 hp hn k]
  rw [hlook]

theorem canonQuery_eq (rqp c : GoStr) (h : canonQuery rqp = some c) :
    c = encodeValues (buildValues (parseQueryPairs (preFrag rqp))) := by
  unfold canonQuery at h
  by_cases h1 : ((preFrag rqp).any isCtl) = true
  · rw [if_pos h1] at h
    cases h
  · rw [if_neg h1] at h
    by_cases h2 : (!validEscapes (fragPart rqp)) = true
    · rw [if_pos h2] at h
      cases h
    · rw [if_neg h2] at h
      exact (Option.some.injEq _ _).mp h.symm

/-- C4 (amended): two raw query strings that parse to the same key/value
pairs up to reordering, the keys being pairwise distinct, canonicalize to
the same string inside `validSignature`, hence give identical computed
signatures and identical verification verdicts. -/
theorem C4_canonicalization_invariance (key ts b q1 q2 c1 c2 : GoStr) (p : Option DurPtr)
    (h1 : canonQuery q1 = some c1) (h2 : canonQuery q2 = some c2)
    (hperm : (parseQueryPairs (preFrag q1)).Perm (parseQueryPairs (preFrag q2)))
    (hnodup : ((parseQueryPairs (preFrag q1)).map Prod.fst).Nodup) :
    c1 = c2 ∧
    calculateSignature ⟨key, p⟩ ts c1 b = calculateSignature ⟨key, p⟩ ts c2 b ∧
    ∀ rs, validSignature ⟨key, p⟩ ts q1 b rs = validSignature ⟨key, p⟩ ts q2 b rs := by
  have hc : c1 = c2 := by
    rw [canonQuery_eq q1 c1 h1, canonQuery_eq q2 c2 h2]
    exact encodeValues_perm _ _ hperm hnodup
  refine ⟨hc, by rw [hc], ?_⟩
  intro rs
  unfold validSignature
  rw [h1, h2, hc]

theorem C4_canonicalization_invariance_witness :
    canonQuery (ascii "b=2&a=1") = some (ascii "a=1&b=2") ∧
    canonQuery (ascii "a=1&b=2") = some (ascii "a=1&b=2") ∧
    ∀ rs, validSignature ⟨ascii "k", none⟩ (ascii "1") (ascii "b=2&a=1") (ascii "B") rs =
      validSignature ⟨ascii "k", none⟩ (ascii "1") (ascii "a=1&b=2") (ascii "B") rs :=
  ⟨by decide, by decide,
   (C4_canonicalization_invariance (ascii "k") (ascii "1") (ascii "B") (ascii "b=2&a=1")
     (ascii "a=1&b=2") (ascii "a=1&b=2") (ascii "a=1&b=2") none
     (by decide) (by decide) (by decide) (by decide)).2.2⟩

/-- C4, as stated, is false: `"a=1&a=2"` and `"a=2&a=1"` contain the same
key/value pairs in different order, yet canonicalize differently (the
per-key value order is preserved), so their computed signatures differ. -/
theorem C4_canonicalization_counterexample :
    (parseQueryPairs (preFrag (ascii "a=1&a=2"))).Perm
      (parseQueryPairs (preFrag (ascii "a=2&a=1"))) ∧
    canonQuery (ascii "a=1&a=2") ≠ canonQuery (ascii "a=2&a=1") ∧
    calculateSignature ⟨[], none⟩ [] (ascii "a=1&a=2") [] ≠
      calculateSignature ⟨[], none⟩ [] (ascii "a=2&a=1") [] :=
  ⟨by decide, by decide, by decide⟩
